/-
Verification of the NovaNet repository's client/server behaviour.

This file shallowly embeds the JavaScript of the repository:
  * `public/index.js` (and the unnamed client script that extends it):
    the `CookieManager` and `TabManager` classes and the navigation retry
    logic of `navigateToUrl`;
  * `src/index.js`: the Fastify `serverFactory` (COOP/COEP headers and the
    WebSocket upgrade routing) and the `/ads/proxy` route (request
    validation, SSRF guard and the HTML attribute rewriting pass).

JavaScript `Map`s are modelled as insertion-ordered association lists,
machine integers and timestamps as `Int`, and fallible platform operations
(`new URL`, `JSON.parse`) as `Option`-returning functions.
-/
import Mathlib

set_option autoImplicit false

namespace NovaNet

/-! ## Insertion-ordered maps

JavaScript `Map` objects preserve insertion order; `set` overwrites an
existing key in place and otherwise appends, `delete` removes the entry.
We model them as association lists with exactly those operations. -/

def mapLookup {α : Type} : List (String × α) → String → Option α
  | [], _ => none
  | (k, v) :: rest, key => if k = key then some v else mapLookup rest key

def mapSet {α : Type} : List (String × α) → String → α → List (String × α)
  | [], key, v => [(key, v)]
  | (k, v') :: rest, key, v =>
    if k = key then (k, v) :: rest else (k, v') :: mapSet rest key v

def mapDelete {α : Type} : List (String × α) → String → List (String × α)
  | [], _ => []
  | (k, v) :: rest, key => if k = key then rest else (k, v) :: mapDelete rest key

theorem mapLookup_mapSet_self {α : Type} (m : List (String × α)) (k : String) (v : α) :
    mapLookup (mapSet m k v) k = some v := by
  induction m with
  | nil => simp [mapSet, mapLookup]
  | cons hd tl ih =>
    obtain ⟨k', v'⟩ := hd
    by_cases h : k' = k
    · simp [mapSet, mapLookup, h]
    · simp [mapSet, mapLookup, h, ih]

theorem mapSet_ne_nil {α : Type} (m : List (String × α)) (k : String) (v : α) :
    mapSet m k v ≠ [] := by
  cases m with
  | nil => simp [mapSet]
  | cons hd tl =>
    obtain ⟨k', v'⟩ := hd
    by_cases h : k' = k <;> simp [mapSet, h]

theorem mapDelete_ne_nil {α : Type} (m : List (String × α)) (k : String)
    (h : 2 ≤ m.length) : mapDelete m k ≠ [] := by
  cases m with
  | nil => simp at h
  | cons hd tl =>
    obtain ⟨k', v'⟩ := hd
    by_cases hk : k' = k
    · simp only [mapDelete, hk, if_pos rfl]
      cases tl with
      | nil => simp at h
      | cons a b => simp
    · simp [mapDelete, hk]

/-! ## JavaScript string prefix and suffix tests

`String.prototype.startsWith` / `endsWith`, modelled on the character
lists underlying the strings. -/

def jsStartsWith (s p : String) : Bool := p.data.isPrefixOf s.data

def jsEndsWith (s p : String) : Bool := p.data.isSuffixOf s.data

/-! ## The cookie store (`CookieManager`, client script)

`cookieStore` maps a domain to a `Map` from cookie name to an attribute
record.  `setCookie` fills defaults exactly as the source does
(`options.path || '/'`, `options.secure || false`, ...); `expires` is the
cookie's expiry timestamp (`undefined` modelled as `none`), and the clock
`new Date()` is passed in explicitly as `now`. -/

structure CookieAttrs where
  value : String
  domain : String
  path : String
  expires : Option Int
  secure : Bool
  httpOnly : Bool
  sameSite : String
deriving DecidableEq, Repr

structure CookieOptions where
  path : Option String := none
  expires : Option Int := none
  secure : Option Bool := none
  httpOnly : Option Bool := none
  sameSite : Option String := none

def CookieStore : Type := List (String × List (String × CookieAttrs))

def setCookie (store : CookieStore) (domain name value : String)
    (options : CookieOptions) : CookieStore :=
  let domainCookies := (mapLookup store domain).getD []
  let attrs : CookieAttrs :=
    { value := value
      domain := domain
      path := options.path.getD "/"
      expires := options.expires
      secure := options.secure.getD false
      httpOnly := options.httpOnly.getD false
      sameSite := options.sameSite.getD "Lax" }
  mapSet store domain (mapSet domainCookies name attrs)

/-- `CookieManager.getCookie`.  Returns the cookie value, the cookie store
after the call (an expired cookie is deleted from its domain map), and
whether `saveCookies` was invoked (i.e. whether local storage was
re-persisted). -/
def getCookie (store : CookieStore) (domain name : String) (now : Int) :
    Option String × CookieStore × Bool :=
  match mapLookup store domain with
  | none => (none, store, false)
  | some domainCookies =>
    match mapLookup domainCookies name with
    | none => (none, store, false)
    | some cookie =>
      match cookie.expires with
      | some e =>
        if e < now then
          (none, mapSet store domain (mapDelete domainCookies name), true)
        else (some cookie.value, store, false)
      | none => (some cookie.value, store, false)

/-! ## Persistence of the cookie store (`saveCookies` / `loadCookies`)

`saveCookies` computes `JSON.stringify(Object.fromEntries(this.cookieStore))`
and stores it under the `'novanet_cookies'` local-storage key；`loadCookies`
computes `new Map(Object.entries(JSON.parse(stored)))`.  We model the
JavaScript value space with `JsVal` (`mapV` is an ES `Map`, `objV` a plain
object) and the round trip `JSON.parse ∘ JSON.stringify` with `jsonValue`:
`JSON.stringify` serialises only an object's own enumerable properties, and
an ES `Map` has none, so a `Map` comes back from the round trip as the empty
plain object. -/

mutual
inductive JsVal where
  | nullV
  | boolV (b : Bool)
  | numV (n : Int)
  | strV (s : String)
  | objV (fields : JsFields)
  | mapV (entries : JsFields)
deriving DecidableEq, Repr

inductive JsFields where
  | nil
  | cons (key : String) (val : JsVal) (rest : JsFields)
deriving DecidableEq, Repr
end

mutual
/-- The value denoted by `JSON.parse (JSON.stringify v)`: an ES `Map` has no
own enumerable properties, so it serialises to `{}`; a plain object keeps
its fields (recursively round-tripped); primitives are unchanged. -/
def jsonValue : JsVal → JsVal
  | .mapV _ => .objV .nil
  | .objV fs => .objV (jsonFields fs)
  | .nullV => .nullV
  | .boolV b => .boolV b
  | .numV n => .numV n
  | .strV s => .strV s

def jsonFields : JsFields → JsFields
  | .nil => .nil
  | .cons k v rest => .cons k (jsonValue v) (jsonFields rest)
end

/-- `Object.fromEntries` applied to an ES `Map`: a plain object with the same
entries (other arguments do not occur in the sources). -/
def objectFromEntries : JsVal → JsVal
  | .mapV es => .objV es
  | v => v

/-- `new Map(Object.entries(o))` applied to a plain object: a `Map` with the
same entries. -/
def newMapOfEntries : JsVal → JsVal
  | .objV fs => .mapV fs
  | v => v

/-- The attribute record stored by `setCookie`, as the JavaScript object it
is (`expires: undefined` is absent from the serialised form and omitted). -/
def attrsToJs (c : CookieAttrs) : JsVal :=
  .objV (.cons "value" (.strV c.value) (.cons "domain" (.strV c.domain)
    (.cons "path" (.strV c.path)
      (match c.expires with
       | some e => .cons "expires" (.numV e) (restFields c)
       | none => restFields c))))
where restFields (c : CookieAttrs) : JsFields :=
  .cons "secure" (.boolV c.secure) (.cons "httpOnly" (.boolV c.httpOnly)
    (.cons "sameSite" (.strV c.sameSite) .nil))

def fieldsOfList : List (String × JsVal) → JsFields
  | [] => .nil
  | (k, v) :: rest => .cons k v (fieldsOfList rest)

/-- The `this.cookieStore` field as the JavaScript value it is: a `Map` from
domain to a `Map` from cookie name to the attribute object. -/
def cookieStoreToJs (store : CookieStore) : JsVal :=
  .mapV (fieldsOfList (store.map (fun d =>
    (d.1, JsVal.mapV (fieldsOfList (d.2.map (fun c => (c.1, attrsToJs c.2))))))))

/-- The value stored under the `'novanet_cookies'` local-storage key by
`saveCookies`, read back by `JSON.parse`: the store is passed through
`Object.fromEntries` and then `JSON.stringify`. -/
def saveCookiesStored (store : CookieStore) : JsVal :=
  jsonValue (objectFromEntries (cookieStoreToJs store))

/-- `loadCookies` on the parsed local-storage value: `this.cookieStore`
becomes `new Map(Object.entries(parsed))`. -/
def loadCookies (stored : JsVal) : JsVal := newMapOfEntries stored

/-- Saving the store with `saveCookies` and reloading it with `loadCookies`:
the resulting `this.cookieStore` value. -/
def saveLoadRoundTrip (store : CookieStore) : JsVal :=
  loadCookies (saveCookiesStored store)

/-! ## The tab manager (`TabManager`, client script)

State of a `TabManager` instance.  DOM nodes are modelled as opaque
identifiers collected in `dom` (the tab's header element and its content
panel); the address-bar and CSS-class updates of `switchToTab` carry no
state the claims mention and are not tracked.  The tab element and content
node of tab `t` exist in `dom` exactly when `t` is a key of `tabs`, which
is what `switchToTab`'s `querySelector` test observes. -/

structure TabData where
  element : String
  content : String
  title : String
  url : Option String
  loading : Bool
deriving DecidableEq, Repr

structure TMState where
  tabs : List (String × TabData)
  currentTabId : String
  tabCounter : Nat
  history : List (String × List String)
  currentHistoryIndex : List (String × Int)
  dom : List String
deriving DecidableEq, Repr

/-- `TabManager.switchToTab`: if the tab's element and content exist, mark
it active (modelled: the tab id is a key of `tabs`). -/
def switchToTab (s : TMState) (tabId : String) : TMState :=
  if (mapLookup s.tabs tabId).isSome then { s with currentTabId := tabId } else s

def tabElementId (tabId : String) : String := "tab-element-" ++ tabId

def tabContentId (tabId : String) : String := "tab-content-" ++ tabId

/-- `TabManager.createTab`: mint `tab-<counter>`, insert the element and the
content panel into the DOM, initialise the tab's history to `[]` with index
`-1`, record the tab data and switch to the new tab. -/
def createTab (s : TMState) (url : Option String) (title : String) : TMState :=
  let tabId := "tab-" ++ toString s.tabCounter
  let s1 : TMState :=
    { s with
      tabCounter := s.tabCounter + 1
      dom := s.dom ++ [tabElementId tabId, tabContentId tabId]
      history := mapSet s.history tabId []
      currentHistoryIndex := mapSet s.currentHistoryIndex tabId (-1)
      tabs := mapSet s.tabs tabId
        { element := tabElementId tabId
          content := tabContentId tabId
          title := title
          url := url
          loading := false } }
  switchToTab s1 tabId

/-- `TabManager.closeTab` (the `event.stopPropagation()` call touches only
the DOM event, not the manager state).  Refuses to close the last tab;
otherwise removes the tab's DOM nodes, deletes it from the three maps and,
if it was active, switches to the first remaining tab. -/
def closeTab (s : TMState) (tabId : String) : TMState :=
  if s.tabs.length ≤ 1 then s
  else
    match mapLookup s.tabs tabId with
    | none => s
    | some tab =>
      let s1 : TMState :=
        { s with
          dom := (s.dom.erase tab.element).erase tab.content
          tabs := mapDelete s.tabs tabId
          history := mapDelete s.history tabId
          currentHistoryIndex := mapDelete s.currentHistoryIndex tabId }
      if s.currentTabId = tabId then
        match s1.tabs with
        | [] => s1
        | (first, _) :: _ => switchToTab s1 first
      else s1

/-- `Array.prototype.splice(start)` keeps the elements before `start`; a
negative `start` counts from the end of the array. -/
def spliceKeep {α : Type} (l : List α) (start : Int) : List α :=
  if start < 0 then l.take (l.length - (-start).toNat) else l.take start.toNat

/-- `TabManager.addToHistory`: initialise the tab's history if absent, drop
the forward entries with `history.splice(currentIndex + 1)`, push the URL
and point the index at the last entry.  If the index map had no entry for
the tab, `undefined + 1` is `NaN` and `splice(NaN)` keeps nothing. -/
def addToHistory (s : TMState) (tabId url : String) : TMState :=
  let s1 : TMState :=
    if (mapLookup s.history tabId).isSome then s
    else
      { s with
        history := mapSet s.history tabId []
        currentHistoryIndex := mapSet s.currentHistoryIndex tabId (-1) }
  let h := (mapLookup s1.history tabId).getD []
  let kept :=
    match mapLookup s1.currentHistoryIndex tabId with
    | some i => spliceKeep h (i + 1)
    | none => []
  let newHist := kept ++ [url]
  { s1 with
    history := mapSet s1.history tabId newHist
    currentHistoryIndex := mapSet s1.currentHistoryIndex tabId ((newHist.length : Int) - 1) }

/-- The manager state after the `DOMContentLoaded` handler has installed the
home tab. -/
def initTMState : TMState :=
  { tabs := [("home",
      { element := tabElementId "home"
        content := tabContentId "home"
        title := "Home"
        url := none
        loading := false })]
    currentTabId := "home"
    tabCounter := 1
    history := [("home", [])]
    currentHistoryIndex := [("home", -1)]
    dom := [tabElementId "home", tabContentId "home"] }

inductive TMOp where
  | create (url : Option String) (title : String)
  | close (tabId : String)

def applyTMOp (s : TMState) : TMOp → TMState
  | .create url title => createTab s url title
  | .close tabId => closeTab s tabId

def applyTMOps (s : TMState) : List TMOp → TMState
  | [] => s
  | op :: ops => applyTMOps (applyTMOp s op) ops

/-! ## The navigation retry logic (`navigateToUrl`, client script)

Each `navigateToUrl` call closes over one `connectionRetries` counter with
`maxRetries = 3`, shared by the `establishConnection` catch handler, the
`iframe.onerror` handler, the 30-second load timeout and the slow-loading
monitor.  The first three show an error message once the counter has
reached the limit; the slow-loading monitor silently does nothing. -/

def maxRetries : Nat := 3

inductive ConnEvent where
  | connectFail
  | frameError
  | loadTimeout
  | slowLoad
deriving DecidableEq, Repr

inductive ConnAction where
  | retry
  | showError
  | noop
deriving DecidableEq, Repr

/-- One failure event: retry (incrementing the shared counter) while
`connectionRetries < maxRetries`, otherwise show the error message (or, for
the slow-loading monitor, do nothing). -/
def connStep (retries : Nat) (e : ConnEvent) : Nat × ConnAction :=
  match e with
  | .slowLoad =>
    if retries < maxRetries then (retries + 1, .retry) else (retries, .noop)
  | _ =>
    if retries < maxRetries then (retries + 1, .retry) else (retries, .showError)

/-- The actions taken over a sequence of failure events. -/
def connTrace (retries : Nat) : List ConnEvent → List ConnAction
  | [] => []
  | e :: es => (connStep retries e).2 :: connTrace (connStep retries e).1 es

def countRetries (actions : List ConnAction) : Nat :=
  (actions.filter (· = ConnAction.retry)).length

/-! ## A model of the WHATWG URL parser

The server parses and resolves URLs with Node's WHATWG `URL` class
(`new NodeURL(u)` / `new NodeURL(u, base)`, `url.toString()`), and the
rewriting uses `encodeURIComponent`.  These are platform primitives, not
repository code; the model below covers ASCII input with scheme, optional
authority (`host:port`, IPv6 hosts kept in their brackets as the WHATWG
host serialisation does), path with dot-segment removal, query and
fragment.  Percent-decoding, IDNA and exotic scheme corner cases are out of
scope; every claim quantifies over the parser's output, so only the
executable witnesses depend on these concrete parsing rules. -/

structure URLRec where
  protocol : String
  hostname : String
  port : String
  pathname : String
  search : String
  hash : String
deriving DecidableEq, Repr

def isSchemeChar (c : Char) : Bool := c.isAlpha || c.isDigit || c = '+' || c = '-' || c = '.'

def takeSchemeAux (acc : List Char) : List Char → Option (List Char × List Char)
  | [] => none
  | c :: cs =>
    if c = ':' then some (acc.reverse, cs)
    else if isSchemeChar c then takeSchemeAux (c :: acc) cs
    else none

/-- Splits a leading `scheme:` off a URL string, if present. -/
def takeScheme : List Char → Option (List Char × List Char)
  | [] => none
  | c :: cs => if c.isAlpha then takeSchemeAux [c] cs else none

def specialProtocols : List String := ["http:", "https:", "ws:", "wss:", "ftp:", "file:"]

def defaultPort (protocol : String) : String :=
  if protocol = "http:" || protocol = "ws:" then "80"
  else if protocol = "https:" || protocol = "wss:" then "443"
  else if protocol = "ftp:" then "21"
  else ""

def lowerChars (cs : List Char) : List Char := cs.map Char.toLower

def lowerStr (s : String) : String := String.mk (lowerChars s.data)

def digitsVal (cs : List Char) : Nat := cs.foldl (fun acc c => 10 * acc + (c.toNat - 48)) 0

def afterLastAt (cs : List Char) : List Char := ((cs.splitOn '@').getLast?).getD cs

def parsePort (protocol : String) (pchars : List Char) : Option String :=
  if pchars = [] then some ""
  else if pchars.all Char.isDigit then
    let v := digitsVal pchars
    if v ≤ 65535 then
      let p := toString v
      some (if p = defaultPort protocol then "" else p)
    else none
  else none

def parseAuthority (protocol : String) (auth : List Char) : Option (String × String) :=
  let hostport := afterLastAt auth
  match hostport with
  | '[' :: rest =>
    let sp := rest.span (fun c => !(c = ']'))
    match sp.2 with
    | ']' :: after =>
      let host := String.mk ('[' :: lowerChars sp.1 ++ [']'])
      match after with
      | [] => some (host, "")
      | ':' :: pchars => (parsePort protocol pchars).map (fun p => (host, p))
      | _ => none
    | _ => none
  | _ =>
    let sp := hostport.span (fun c => !(c = ':'))
    if sp.1 = [] then none
    else
      match sp.2 with
      | ':' :: pchars => (parsePort protocol pchars).map (fun p => (String.mk (lowerChars sp.1), p))
      | _ => some (String.mk (lowerChars sp.1), "")

/-- Splits `path?query#fragment` into its three parts (query keeps its `?`,
fragment its `#`). -/
def splitPQH (cs : List Char) : List Char × List Char × List Char :=
  let p1 := cs.span (fun c => !(c = '#'))
  let p2 := p1.1.span (fun c => !(c = '?'))
  (p2.1, p2.2, p1.2)

def mkSearch (q : List Char) : String := if q = [] || q = ['?'] then "" else String.mk q

def mkHash (h : List Char) : String := if h = [] || h = ['#'] then "" else String.mk h

def splitSegs : List Char → List (List Char)
  | [] => [[]]
  | c :: rest =>
    if c = '/' then [] :: splitSegs rest
    else
      match splitSegs rest with
      | s :: ss => (c :: s) :: ss
      | [] => [[c]]

/-- Dot-segment removal over the path's segment list (`.` is skipped, `..`
pops a segment; a trailing dot segment leaves a trailing slash). -/
def normSegsGo (stack : List (List Char)) : List (List Char) → List (List Char)
  | [] => stack.reverse
  | seg :: rest =>
    if seg = ['.'] then
      if rest = [] then ([] :: stack).reverse else normSegsGo stack rest
    else if seg = ['.', '.'] then
      if rest = [] then ([] :: stack.drop 1).reverse else normSegsGo (stack.drop 1) rest
    else normSegsGo (seg :: stack) rest

def normalizePath (path : List Char) : String :=
  let path := path.map (fun c => if c = '\\' then '/' else c)
  let segs :=
    match splitSegs path with
    | [] :: rest => rest
    | other => other
  let normed := normSegsGo [] segs
  "/" ++ String.intercalate "/" (normed.map String.mk)

/-- `new URL(s)` (absolute): `none` models the constructor throwing. -/
def parseURL (s : String) : Option URLRec :=
  match takeScheme s.data with
  | none => none
  | some (schemeChars, rest) =>
    let protocol := String.mk (lowerChars schemeChars) ++ ":"
    if specialProtocols.contains protocol then
      let rest2 := rest.dropWhile (fun c => c = '/' || c = '\\')
      let sp := rest2.span (fun c => !(c = '/' || c = '\\' || c = '?' || c = '#'))
      match parseAuthority protocol sp.1 with
      | none => none
      | some (host, port) =>
        if host = "" && protocol ≠ "file:" then none
        else
          let pqh := splitPQH sp.2
          some { protocol := protocol, hostname := host, port := port,
                 pathname := normalizePath pqh.1, search := mkSearch pqh.2.1,
                 hash := mkHash pqh.2.2 }
    else
      match rest with
      | '/' :: '/' :: r2 =>
        let sp := r2.span (fun c => !(c = '/' || c = '?' || c = '#'))
        match parseAuthority protocol sp.1 with
        | none => none
        | some (host, port) =>
          let pqh := splitPQH sp.2
          some { protocol := protocol, hostname := host, port := port,
                 pathname := normalizePath pqh.1, search := mkSearch pqh.2.1,
                 hash := mkHash pqh.2.2 }
      | _ =>
        let pqh := splitPQH rest
        some { protocol := protocol, hostname := "", port := "",
               pathname := String.mk pqh.1, search := mkSearch pqh.2.1,
               hash := mkHash pqh.2.2 }

/-- The base directory a relative path is merged onto: the base path up to
and including its last slash. -/
def dirOf (cs : List Char) : List Char :=
  (cs.reverse.dropWhile (fun c => !(c = '/'))).reverse

/-- `new URL(input, base)`: absolute inputs are parsed outright, otherwise
the input is resolved as a protocol-relative, absolute-path, query-only,
fragment-only or relative-path reference against the base. -/
def resolveURL (input : String) (base : URLRec) : Option URLRec :=
  match takeScheme input.data with
  | some _ => parseURL input
  | none =>
    if base.hostname = "" && !(specialProtocols.contains base.protocol) then none
    else
      match input.data with
      | [] => some { base with hash := "" }
      | '/' :: '/' :: r2 => parseURL (base.protocol ++ "//" ++ String.mk r2)
      | '/' :: _ =>
        let pqh := splitPQH input.data
        some { base with pathname := normalizePath pqh.1, search := mkSearch pqh.2.1,
                         hash := mkHash pqh.2.2 }
      | '?' :: _ =>
        let pqh := splitPQH input.data
        some { base with search := mkSearch pqh.2.1, hash := mkHash pqh.2.2 }
      | '#' :: _ => some { base with hash := mkHash input.data }
      | _ =>
        let pqh := splitPQH input.data
        some { base with pathname := normalizePath (dirOf base.pathname.data ++ pqh.1),
                         search := mkSearch pqh.2.1, hash := mkHash pqh.2.2 }

/-- `url.toString()`. -/
def serializeURL (u : URLRec) : String :=
  u.protocol ++
    (if u.hostname ≠ "" || specialProtocols.contains u.protocol then
      "//" ++ u.hostname ++ (if u.port = "" then "" else ":" ++ u.port)
    else "") ++
    u.pathname ++ u.search ++ u.hash

def hexDigitChar (n : Nat) : Char := if n < 10 then Char.ofNat (48 + n) else Char.ofNat (55 + n)

def utf8Bytes (c : Char) : List Nat :=
  let n := c.toNat
  if n < 128 then [n]
  else if n < 2048 then [192 + n / 64, 128 + n % 64]
  else if n < 65536 then [224 + n / 4096, 128 + (n / 64) % 64, 128 + n % 64]
  else [240 + n / 262144, 128 + (n / 4096) % 64, 128 + (n / 64) % 64, 128 + n % 64]

def pctByte (b : Nat) : List Char := ['%', hexDigitChar (b / 16), hexDigitChar (b % 16)]

/-- The characters `encodeURIComponent` leaves unescaped (ECMA-262). -/
def uriUnreserved (c : Char) : Bool :=
  c.isAlpha || c.isDigit || c = '-' || c = '_' || c = '.' || c = '!' || c = '~' ||
    c = '*' || c = '\'' || c = '(' || c = ')'

/-- `encodeURIComponent`: unreserved characters kept, everything else
percent-encoded as uppercase-hex UTF-8 bytes. -/
def encodeURIComponent (s : String) : String :=
  String.mk ((s.data.map (fun c =>
    if uriUnreserved c then [c] else ((utf8Bytes c).map pctByte).flatten)).flatten)

/-! ## The server factory (`src/index.js`)

The `request` listener sets the COOP and COEP headers before delegating to
Fastify unless the URL starts with `/ads/`; the `upgrade` listener routes a
request to the wisp tunnel exactly when its URL ends with `/wisp/` and
otherwise ends the socket. -/

def coopHeader : String × String := ("Cross-Origin-Opener-Policy", "same-origin")

def coepHeader : String × String := ("Cross-Origin-Embedder-Policy", "require-corp")

/-- The headers the `serverFactory` request listener sets on the response
before calling the Fastify handler, as a function of `req.url`. -/
def serverFactoryHeaders (url : String) : List (String × String) :=
  if !(jsStartsWith url "/ads/") then [coopHeader, coepHeader] else []

/-- The spec side of claim C2, written from the claim's words: requests not
under `/ads/` carry both headers, requests under `/ads/` carry neither. -/
def claimHeaders (url : String) : List (String × String) :=
  if jsStartsWith url "/ads/" then [] else [coopHeader, coepHeader]

inductive UpgradeAction where
  | routeWisp
  | endSocket
deriving DecidableEq, Repr

/-- The `serverFactory` upgrade listener as a function of `req.url`. -/
def upgradeHandler (url : String) : UpgradeAction :=
  if jsEndsWith url "/wisp/" then .routeWisp else .endSocket

/-! ## The `/ads/proxy` request guards (`src/index.js`)

Everything the handler does before the outbound `fetch`: the `!u` check
(false for a missing parameter and for the empty string), `new NodeURL(u)`,
the `/^https?:$/` protocol test, and the SSRF host blocklist on the
lowercased hostname. -/

/-- The source regex `/^172\.(1[6-9]|2\d|3[0-1])\./` applied with `test`:
an anchored match of `172.`, a two-character alternative, and a dot. -/
def regex172 (h : String) : Bool :=
  match h.data with
  | '1' :: '7' :: '2' :: '.' :: a :: b :: '.' :: _ =>
    (a == '1' && decide ('6' ≤ b) && decide (b ≤ '9')) ||
      (a == '2' && b.isDigit) ||
      (a == '3' && (b == '0' || b == '1'))
  | _ => false

/-- `isBlockedHost` from the handler, on the lowercased hostname. -/
def isBlockedHost (hostl : String) : Bool :=
  hostl == "localhost" || jsEndsWith hostl ".localhost" ||
  hostl == "127.0.0.1" || jsStartsWith hostl "127." ||
  jsStartsWith hostl "10." || jsStartsWith hostl "192.168." ||
  regex172 hostl ||
  hostl == "::1" || jsStartsWith hostl "fe80:" || jsStartsWith hostl "fc" ||
  jsStartsWith hostl "fd"

inductive ProxyOutcome where
  | reply (status : Nat) (body : String)
  | fetch (target : URLRec)
deriving DecidableEq, Repr

/-- The `/ads/proxy` handler up to (and excluding) the outbound `fetch`, as
a function of the `u` query parameter (`none` when absent). -/
def adsProxyGuard (u : Option String) : ProxyOutcome :=
  match u with
  | none => .reply 400 "Missing u"
  | some s =>
    if s = "" then .reply 400 "Missing u"
    else
      match parseURL s with
      | none => .reply 400 "Invalid URL"
      | some target =>
        if !(target.protocol = "http:" || target.protocol = "https:") then
          .reply 400 "Unsupported protocol"
        else if isBlockedHost (lowerStr target.hostname) then
          .reply 403 "Forbidden host"
        else .fetch target

/-- The spec side of the private-address range `172.16.*`–`172.31.*` from
the claim's pattern list, as the sixteen prefixes it denotes. -/
def claim172 (h : String) : Bool :=
  jsStartsWith h "172.16." || jsStartsWith h "172.17." || jsStartsWith h "172.18." ||
  jsStartsWith h "172.19." || jsStartsWith h "172.20." || jsStartsWith h "172.21." ||
  jsStartsWith h "172.22." || jsStartsWith h "172.23." || jsStartsWith h "172.24." ||
  jsStartsWith h "172.25." || jsStartsWith h "172.26." || jsStartsWith h "172.27." ||
  jsStartsWith h "172.28." || jsStartsWith h "172.29." || jsStartsWith h "172.30." ||
  jsStartsWith h "172.31."

/-- The spec side of the host blocklist, written from the claim's pattern
list: localhost, `*.localhost`, `127.*`, `10.*`, `192.168.*`,
`172.16.*`–`172.31.*`, `::1`, `fe80:*`, `fc*`, `fd*`. -/
def claimBlockedHost (h : String) : Bool :=
  h == "localhost" || jsEndsWith h ".localhost" ||
  jsStartsWith h "127." || jsStartsWith h "10." || jsStartsWith h "192.168." ||
  claim172 h ||
  h == "::1" || jsStartsWith h "fe80:" || jsStartsWith h "fc" || jsStartsWith h "fd"

/-- The spec side of claim C5 as amended: absent or empty `u` is rejected
with `Missing u`, unparsable `u` with `Invalid URL`, a non-http(s) protocol
with `Unsupported protocol`, a blocklisted hostname with `Forbidden host`,
and only the remaining requests reach the outbound fetch. -/
def claimProxyGuard (u : Option String) : ProxyOutcome :=
  match u with
  | none => .reply 400 "Missing u"
  | some s =>
    if s = "" then .reply 400 "Missing u"
    else
      match parseURL s with
      | none => .reply 400 "Invalid URL"
      | some target =>
        if target.protocol = "http:" || target.protocol = "https:" then
          if claimBlockedHost (lowerStr target.hostname) then .reply 403 "Forbidden host"
          else .fetch target
        else .reply 400 "Unsupported protocol"

/-! ## The HTML attribute rewriting pass (`/ads/proxy`, `src/index.js`)

`out.replace(/\b(href|src|action|poster)=("|')([^"']+)(\2)/gi, cb)`:
a left-to-right scan for non-overlapping matches of an attribute name (at a
word boundary, case-insensitively), `=`, a quote, one or more non-quote
characters, and the same quote again.  The callback keeps values starting
with `data:`, `blob:`, `mailto:` or `javascript:` and otherwise rewrites
the value through `prox`.  The scanner below carries, instead of the
regex's `\b`, the equivalent flag "the previous character of the original
string is a word character" (the alternatives all start with a letter, so a
match can begin exactly where that flag is false).  `scanAttrs` recurses on
an explicit fuel, one unit per character position, so that it computes by
kernel reduction; `htmlAttrPass` supplies the string's length, which the
scan never exhausts. -/

def isWordChar (c : Char) : Bool := c.isAlpha || c.isDigit || c = '_'

def isQuoteChar (c : Char) : Bool := c = '"' || c = '\''

/-- The regex alternatives, in their order in the pattern. -/
def attrAlternatives : List String := ["href", "src", "action", "poster"]

/-- Case-insensitive literal match: returns the matched input characters (in
their original case, as the regex captures them) and the rest. -/
def matchCI : List Char → List Char → Option (List Char × List Char)
  | [], cs => some ([], cs)
  | _ :: _, [] => none
  | p :: ps, c :: cs =>
    if c.toLower = p.toLower then (matchCI ps cs).map (fun r => (c :: r.1, r.2)) else none

def tryAttr : List String → List Char → Option (List Char × List Char)
  | [], _ => none
  | a :: rest, cs =>
    match matchCI a.data cs with
    | some r => some r
    | none => tryAttr rest cs

/-- `([^"']+)(\2)`: the greedy run of non-quote characters ends at the first
quote of either kind, which must then equal the opening quote. -/
def splitAtQuote : List Char → Option (List Char × Char × List Char)
  | [] => none
  | c :: cs =>
    if isQuoteChar c then some ([], c, cs)
    else (splitAtQuote cs).map (fun r => (c :: r.1, r.2.1, r.2.2))

/-- One attempt to match the attribute regex at the start of `cs` (the word
boundary is checked by the caller): returns the captured attribute text,
the quote, the value and the rest of the input. -/
def tryMatch (cs : List Char) : Option (List Char × Char × List Char × List Char) :=
  match tryAttr attrAlternatives cs with
  | none => none
  | some (attr, r1) =>
    match r1 with
    | e :: q :: r2 =>
      if e = '=' then
        if isQuoteChar q then
          match splitAtQuote r2 with
          | none => none
          | some (v, q2, r3) =>
            if v = [] then none
            else if q2 = q then some (attr, q, v, r3) else none
        else none
      else none
    | _ => none

/-- The callback's prefix test (`val.startsWith('data:') || ...`). -/
def hasBadPrefix (v : String) : Bool :=
  jsStartsWith v "data:" || jsStartsWith v "blob:" ||
    jsStartsWith v "mailto:" || jsStartsWith v "javascript:"

/-- `prox` from the handler: resolve the value against the fetched target
and route it through `/ads/proxy`; if the URL constructor throws, return
the value unchanged. -/
def prox (base : URLRec) (v : String) : String :=
  match resolveURL v base with
  | some abs => "/ads/proxy?u=" ++ encodeURIComponent (serializeURL abs)
  | none => v

/-- The replacement the callback produces for one match (`m` itself for the
kept prefixes, ``attr=${q}${prox(val)}${q}`` otherwise). -/
def attrReplacement (base : URLRec) (attr : List Char) (q : Char) (v : List Char) : String :=
  if hasBadPrefix (String.mk v) then
    String.mk attr ++ "=" ++ String.mk [q] ++ String.mk v ++ String.mk [q]
  else
    String.mk attr ++ "=" ++ String.mk [q] ++ prox base (String.mk v) ++ String.mk [q]

def scanAttrs (base : URLRec) : Nat → Bool → List Char → List Char
  | 0, _, cs => cs
  | _ + 1, _, [] => []
  | fuel + 1, prevW, c :: cs =>
    if prevW then c :: scanAttrs base fuel (isWordChar c) cs
    else
      match tryMatch (c :: cs) with
      | some (attr, q, v, rest) =>
        (attrReplacement base attr q v).data ++ scanAttrs base fuel false rest
      | none => c :: scanAttrs base fuel (isWordChar c) cs

/-- The whole attribute rewriting pass over an HTML body (the handler
afterwards also rewrites `url(...)` occurrences and strips CSP `<meta>`
tags; those passes are separate regexes and not part of this one). -/
def htmlAttrPass (base : URLRec) (s : String) : String :=
  String.mk (scanAttrs base s.data.length false s.data)

/-! ## Claim C2: COOP/COEP headers -/

/-- C2: for every request URL not starting with `/ads/` the server factory
sets `Cross-Origin-Opener-Policy: same-origin` and
`Cross-Origin-Embedder-Policy: require-corp`, and for every URL starting
with `/ads/` it sets neither header. -/
theorem c2_coop_coep_headers (url : String) :
    serverFactoryHeaders url = claimHeaders url := by
  by_cases h : jsStartsWith url "/ads/" <;>
    simp [serverFactoryHeaders, claimHeaders, h]

/-! ## Claim C7: WebSocket upgrade routing -/

/-- C7: an upgrade request is routed to the wisp tunnel handler if and only
if its URL ends with `/wisp/`, and its socket is ended otherwise. -/
theorem c7_upgrade_routing (url : String) :
    (upgradeHandler url = UpgradeAction.routeWisp ↔ jsEndsWith url "/wisp/" = true) ∧
    (upgradeHandler url = UpgradeAction.endSocket ↔ jsEndsWith url "/wisp/" = false) := by
  by_cases h : jsEndsWith url "/wisp/" <;> simp [upgradeHandler, h]

/-! ## Claim C1: the cookie store does not survive the save/load round trip

`saveCookies` serialises `Object.fromEntries(this.cookieStore)` with
`JSON.stringify`; the values of that object are the per-domain ES `Map`s,
which stringify as `{}`.  Reloading therefore maps every domain to the
empty plain object and loses every cookie. -/

/-- A store holding a single cookie, as `setCookie` builds it. -/
def c1Store : CookieStore := setCookie [] "example.com" "sid" "abc123" {}

/-- C1 (the code's behaviour at the failing input): saving the one-cookie
store and reloading it yields a store whose `example.com` entry is the
empty plain object, not the original cookie map — the round trip loses the
cookie instead of preserving the store verbatim. -/
theorem c1_roundtrip_loses_cookies :
    saveLoadRoundTrip c1Store =
      JsVal.mapV (.cons "example.com" (.objV .nil) .nil) ∧
    saveLoadRoundTrip c1Store ≠ cookieStoreToJs c1Store := by
  constructor
  · rfl
  · decide

/-! ## Claim C6: `setCookie` defaults and `getCookie` round trip -/

/-- C6: after `setCookie(d, n, v)` with no options, `getCookie(d, n)`
returns `v`, and the stored attribute record has path `/`, no expiry,
`secure = false`, `httpOnly = false` and `sameSite = 'Lax'`. -/
theorem c6_setCookie_getCookie (store : CookieStore) (d n v : String) (now : Int) :
    (getCookie (setCookie store d n v {}) d n now).1 = some v ∧
    (mapLookup (setCookie store d n v {}) d).bind (fun dcs => mapLookup dcs n) =
      some { value := v, domain := d, path := "/", expires := none,
             secure := false, httpOnly := false, sameSite := "Lax" } := by
  unfold setCookie getCookie
  simp [mapLookup_mapSet_self]

/-! ## Claim C8: the navigation retry limit -/

theorem connTrace_stuck (r : Nat) (hr : maxRetries ≤ r) (es : List ConnEvent) :
    countRetries (connTrace r es) = 0 := by
  induction es with
  | nil => simp [connTrace, countRetries]
  | cons e es ih =>
    have hlt : ¬ r < maxRetries := not_lt.mpr hr
    have h1 : (connStep r e).1 = r := by cases e <;> simp [connStep, hlt]
    have h2 : (connStep r e).2 ≠ ConnAction.retry := by cases e <;> simp [connStep, hlt]
    simpa [connTrace, countRetries, List.filter_cons, h1, h2] using ih

theorem countRetries_connTrace_le (es : List ConnEvent) (r : Nat) :
    countRetries (connTrace r es) ≤ maxRetries - r := by
  induction es generalizing r with
  | nil => simp [connTrace, countRetries]
  | cons e es ih =>
    by_cases hlt : r < maxRetries
    · have step1 : (connStep r e).1 = r + 1 := by cases e <;> simp [connStep, hlt]
      have step2 : (connStep r e).2 = ConnAction.retry := by cases e <;> simp [connStep, hlt]
      have h := ih (r + 1)
      have key : countRetries (connTrace r (e :: es)) =
          countRetries (connTrace (r + 1) es) + 1 := by
        simp [connTrace, step1, step2, countRetries, List.filter_cons]
      rw [key]
      simp only [maxRetries] at h hlt ⊢
      omega
    · have h0 := connTrace_stuck r (not_lt.mp hlt) (e :: es)
      omega

/-- C8: over any sequence of connection failures, iframe errors, load
timeouts and slow-load checks, a single navigation performs at most
`maxRetries = 3` retries; once the shared counter has reached the limit, a
further failure leaves the counter unchanged and schedules no retry, and
every further failure other than the silent slow-load monitor shows the
error message. -/
theorem c8_retry_limit :
    (∀ es : List ConnEvent, countRetries (connTrace 0 es) ≤ maxRetries) ∧
    (∀ (r : Nat) (e : ConnEvent), maxRetries ≤ r →
      (connStep r e).1 = r ∧ (connStep r e).2 ≠ ConnAction.retry) ∧
    (∀ (r : Nat) (e : ConnEvent), maxRetries ≤ r → e ≠ ConnEvent.slowLoad →
      (connStep r e).2 = ConnAction.showError) := by
  refine ⟨fun es => ?_, fun r e hr => ?_, fun r e hr he => ?_⟩
  · simpa using countRetries_connTrace_le es 0
  · have hlt : ¬ r < maxRetries := not_lt.mpr hr
    cases e <;> simp [connStep, hlt]
  · have hlt : ¬ r < maxRetries := not_lt.mpr hr
    cases e
    case slowLoad => simp at he
    all_goals simp [connStep, hlt]

/-- Witness for C8 at the concrete counter value 3: the fourth failure
leaves the counter at 3, performs no retry and shows the error. -/
theorem c8_retry_limit_witness :
    ((connStep 3 ConnEvent.connectFail).1 = 3 ∧
      (connStep 3 ConnEvent.connectFail).2 ≠ ConnAction.retry) ∧
    (connStep 3 ConnEvent.connectFail).2 = ConnAction.showError :=
  ⟨c8_retry_limit.2.1 3 ConnEvent.connectFail (by decide),
   c8_retry_limit.2.2 3 ConnEvent.connectFail (by decide) (by decide)⟩

/-! ## Claim C10: `getCookie` misses and its expiry side effect -/

/-- C10: `getCookie(d, n)` returns null exactly when the domain is absent,
the cookie is absent, or the cookie's expiry timestamp is in the past; in
the expired case the cookie is deleted from the store and the store is
re-persisted (`saveCookies`), and in the non-expired case the call is
side-effect free. -/
theorem c10_getCookie_none_iff (store : CookieStore) (d n : String) (now : Int) :
    ((getCookie store d n now).1 = none ↔
      mapLookup store d = none ∨
      (∃ dcs, mapLookup store d = some dcs ∧ mapLookup dcs n = none) ∨
      (∃ dcs c e, mapLookup store d = some dcs ∧ mapLookup dcs n = some c ∧
        c.expires = some e ∧ e < now)) ∧
    (∀ dcs c e, mapLookup store d = some dcs → mapLookup dcs n = some c →
      c.expires = some e → e < now →
      getCookie store d n now = (none, mapSet store d (mapDelete dcs n), true)) ∧
    (∀ dcs c, mapLookup store d = some dcs → mapLookup dcs n = some c →
      (c.expires = none ∨ ∃ e, c.expires = some e ∧ ¬ e < now) →
      getCookie store d n now = (some c.value, store, false)) := by
  refine ⟨?_, ?_, ?_⟩
  · cases hd : mapLookup store d with
    | none => simp [getCookie, hd]
    | some dcs =>
      cases hn : mapLookup dcs n with
      | none => simp [getCookie, hd, hn]
      | some c =>
        cases he : c.expires with
        | none => simp [getCookie, hd, hn, he]
        | some e =>
          by_cases hlt : e < now
          · simp [getCookie, hd, hn, he, hlt]
          · simp [getCookie, hd, hn, he, hlt]
  · intro dcs c e hd hn he hlt
    simp [getCookie, hd, hn, he, hlt]
  · intro dcs c hd hn hcase
    rcases hcase with hnone | ⟨e, he, hnlt⟩
    · simp [getCookie, hd, hn, hnone]
    · simp [getCookie, hd, hn, he, hnlt]

/-- A store with one cookie that expired at time 5. -/
def c10Store : CookieStore :=
  [("a.com", [("sid",
    { value := "v", domain := "a.com", path := "/", expires := some 5,
      secure := false, httpOnly := false, sameSite := "Lax" })])]

/-- Witness for C10: reading the expired cookie at time 100 returns null,
deletes it from the store and re-persists. -/
theorem c10_getCookie_none_iff_witness :
    getCookie c10Store "a.com" "sid" 100 = (none, [("a.com", ([] : List (String × CookieAttrs)))], true) :=
  (c10_getCookie_none_iff c10Store "a.com" "sid" 100).2.1 _ _ 5 rfl rfl rfl (by decide)

/-! ## Claim C4: `addToHistory` prunes forward history -/

/-- The history list and current index `addToHistory` effectively starts
from: the stored pair when both maps know the tab, and `([], -1)` otherwise
(a missing history entry is initialised to exactly that, and a missing
index makes `splice(undefined + 1)` keep nothing, like index `-1`). -/
def effHistPair (s : TMState) (t : String) : List String × Int :=
  match mapLookup s.history t, mapLookup s.currentHistoryIndex t with
  | some h, some i => (h, i)
  | _, _ => ([], -1)

/-- C4: `addToHistory(t, u)` drops the entries after the current index of
`t`, appends `u`, and points the index of `t` at the final position, which
holds `u`. -/
theorem c4_addToHistory (s : TMState) (t u : String)
    (hge : ∀ i, mapLookup s.currentHistoryIndex t = some i → -1 ≤ i) :
    mapLookup (addToHistory s t u).history t =
      some ((effHistPair s t).1.take ((effHistPair s t).2 + 1).toNat ++ [u]) ∧
    mapLookup (addToHistory s t u).currentHistoryIndex t =
      some ((((effHistPair s t).1.take ((effHistPair s t).2 + 1).toNat ++ [u]).length : Int) - 1) ∧
    ((effHistPair s t).1.take ((effHistPair s t).2 + 1).toNat ++ [u]).getLast? = some u ∧
    ((effHistPair s t).1.take ((effHistPair s t).2 + 1).toNat ++ [u]).length - 1 =
      ((effHistPair s t).1.take ((effHistPair s t).2 + 1).toNat).length := by
  cases hh : mapLookup s.history t with
  | none =>
    simp [addToHistory, effHistPair, hh, spliceKeep, mapLookup_mapSet_self]
  | some h =>
    cases hi : mapLookup s.currentHistoryIndex t with
    | none =>
      simp [addToHistory, effHistPair, hh, hi, spliceKeep, mapLookup_mapSet_self]
    | some i =>
      have hge' := hge i hi
      have hnn : ¬ i + 1 < 0 := by omega
      simp [addToHistory, effHistPair, hh, hi, spliceKeep, hnn, mapLookup_mapSet_self]

/-- Witness for C4 on the freshly initialised home tab. -/
theorem c4_addToHistory_witness :
    mapLookup (addToHistory initTMState "home" "https://x.test/").history "home" =
      some ["https://x.test/"] ∧
    mapLookup (addToHistory initTMState "home" "https://x.test/").currentHistoryIndex "home" =
      some 0 ∧
    ([] ++ ["https://x.test/"] : List String).getLast? = some "https://x.test/" ∧
    (([] ++ ["https://x.test/"] : List String)).length - 1 = 0 :=
  c4_addToHistory initTMState "home" "https://x.test/"
    (fun i hi => by
      simp [initTMState, mapLookup] at hi
      omega)

/-! ## Claim C9: the last tab cannot be closed -/

theorem switchToTab_tabs (s : TMState) (t : String) : (switchToTab s t).tabs = s.tabs := by
  unfold switchToTab
  split <;> rfl

theorem createTab_tabs_ne_nil (s : TMState) (url : Option String) (title : String) :
    (createTab s url title).tabs ≠ [] := by
  unfold createTab
  rw [switchToTab_tabs]
  exact mapSet_ne_nil _ _ _

theorem closeTab_tabs_ne_nil (s : TMState) (t : String) (hs : s.tabs ≠ []) :
    (closeTab s t).tabs ≠ [] := by
  unfold closeTab
  by_cases hlen : s.tabs.length ≤ 1
  · simpa [hlen] using hs
  · simp only [hlen, if_false]
    cases hl : mapLookup s.tabs t with
    | none => simpa using hs
    | some tab =>
      have h2 : 2 ≤ s.tabs.length := by omega
      have hdel : mapDelete s.tabs t ≠ [] := mapDelete_ne_nil _ _ h2
      by_cases hcur : s.currentTabId = t
      · simp only [hcur, if_true]
        cases htl : mapDelete s.tabs t with
        | nil => exact absurd htl hdel
        | cons hd tl =>
          obtain ⟨first, td⟩ := hd
          simp [htl, switchToTab_tabs, hdel]
      · simpa [hcur] using hdel

theorem applyTMOps_tabs_ne_nil (ops : List TMOp) (s : TMState) (hs : s.tabs ≠ []) :
    (applyTMOps s ops).tabs ≠ [] := by
  induction ops generalizing s with
  | nil => simpa [applyTMOps] using hs
  | cons op ops ih =>
    cases op with
    | create url title => exact ih _ (createTab_tabs_ne_nil s url title)
    | close t => exact ih _ (closeTab_tabs_ne_nil s t hs)

/-- C9: `closeTab` returns the state (tabs, history, index maps and DOM)
unchanged whenever at most one tab is open, and consequently no sequence of
`createTab` / `closeTab` operations starting from the initialised manager
ever empties the tabs map. -/
theorem c9_last_tab_preserved :
    (∀ (s : TMState) (t : String), s.tabs.length ≤ 1 → closeTab s t = s) ∧
    (∀ ops : List TMOp, (applyTMOps initTMState ops).tabs ≠ []) := by
  constructor
  · intro s t h
    simp [closeTab, h]
  · intro ops
    exact applyTMOps_tabs_ne_nil ops initTMState (by simp [initTMState])

/-- Witness for C9: the initial single-tab state survives `closeTab`
untouched. -/
theorem c9_last_tab_preserved_witness :
    initTMState.tabs.length ≤ 1 ∧ closeTab initTMState "home" = initTMState :=
  ⟨by decide, c9_last_tab_preserved.1 initTMState "home" (by decide)⟩

/-! ## Claim C5: the `/ads/proxy` request guards

The amended claim is stated as an equality between the handler's guard
phase and `claimProxyGuard`, the case cascade written from the claim's own
words; the proofs below bridge the code's redundant `'127.0.0.1'` equality
test and its `172.16`–`172.31` regex to the claim's prefix patterns. -/

theorem char_six_to_nine (b : Char) :
    ('6' ≤ b ∧ b ≤ '9') ↔ (b = '6' ∨ b = '7' ∨ b = '8' ∨ b = '9') := by
  constructor
  · rintro ⟨h1, h2⟩
    rw [Char.le_def, UInt32.le_def, BitVec.le_def] at h1 h2
    have e6 : ('6'.val.toBitVec.toNat) = 54 := rfl
    have e9 : ('9'.val.toBitVec.toNat) = 57 := rfl
    rw [e6] at h1
    rw [e9] at h2
    have hofn : b = Char.ofNat b.toNat := (Char.ofNat_toNat b).symm
    have hbt : b.toNat = b.val.toBitVec.toNat := rfl
    set n := b.val.toBitVec.toNat with hn
    interval_cases n <;> rw [hbt] at hofn <;> rw [hofn] <;> simp
  · rintro (rfl | rfl | rfl | rfl) <;> exact ⟨by decide, by decide⟩

theorem char_isDigit_cases (b : Char) :
    b.isDigit = true ↔
      (b = '0' ∨ b = '1' ∨ b = '2' ∨ b = '3' ∨ b = '4' ∨ b = '5' ∨ b = '6' ∨
        b = '7' ∨ b = '8' ∨ b = '9') := by
  constructor
  · intro hd
    simp only [Char.isDigit, Bool.and_eq_true, decide_eq_true_eq] at hd
    obtain ⟨h1, h2⟩ := hd
    rw [ge_iff_le, UInt32.le_def, BitVec.le_def] at h1
    rw [UInt32.le_def, BitVec.le_def] at h2
    have e0 : ((48 : UInt32).toBitVec.toNat) = 48 := rfl
    have e9 : ((57 : UInt32).toBitVec.toNat) = 57 := rfl
    rw [e0] at h1
    rw [e9] at h2
    have hofn : b = Char.ofNat b.toNat := (Char.ofNat_toNat b).symm
    have hbt : b.toNat = b.val.toBitVec.toNat := rfl
    set n := b.val.toBitVec.toNat with hn
    interval_cases n <;> rw [hbt] at hofn <;> rw [hofn] <;> simp
  · rintro (rfl | rfl | rfl | rfl | rfl | rfl | rfl | rfl | rfl | rfl) <;> decide

theorem claim172_shape (h : String) (hc : claim172 h = true) :
    ∃ a b rest, h.data = '1' :: '7' :: '2' :: '.' :: a :: b :: '.' :: rest := by
  simp only [claim172, jsStartsWith, Bool.or_eq_true, List.isPrefixOf_iff_prefix] at hc
  rcases hc with (((((((((((((((hc|hc)|hc)|hc)|hc)|hc)|hc)|hc)|hc)|hc)|hc)|hc)|hc)|hc)|hc)|hc)
  all_goals obtain ⟨t, ht⟩ := hc
  all_goals exact ⟨_, _, t, ht.symm⟩

theorem regex172_eq_claim172 (h : String) : regex172 h = claim172 h := by
  unfold regex172
  split
  · rename_i a b rest heq
    simp only [claim172, jsStartsWith, heq, List.isPrefixOf]
    simp
    rw [Bool.eq_iff_iff]
    simp only [Bool.or_eq_true, Bool.and_eq_true, beq_iff_eq, decide_eq_true_eq]
    constructor
    · rintro ((⟨⟨rfl, h6⟩, h9⟩ | ⟨rfl, hd⟩) | ⟨rfl, hb⟩)
      · rcases (char_six_to_nine b).mp ⟨h6, h9⟩ with rfl | rfl | rfl | rfl <;> simp
      · rcases (char_isDigit_cases b).mp hd with
          rfl | rfl | rfl | rfl | rfl | rfl | rfl | rfl | rfl | rfl <;> simp
      · rcases hb with rfl | rfl <;> simp
    · rintro (((((((((((((((⟨rfl, rfl⟩ | ⟨rfl, rfl⟩) | ⟨rfl, rfl⟩) | ⟨rfl, rfl⟩) |
        ⟨rfl, rfl⟩) | ⟨rfl, rfl⟩) | ⟨rfl, rfl⟩) | ⟨rfl, rfl⟩) | ⟨rfl, rfl⟩) |
        ⟨rfl, rfl⟩) | ⟨rfl, rfl⟩) | ⟨rfl, rfl⟩) | ⟨rfl, rfl⟩) | ⟨rfl, rfl⟩) |
        ⟨rfl, rfl⟩) | ⟨rfl, rfl⟩) <;> decide
  · rename_i hne
    cases hc : claim172 h with
    | false => rfl
    | true =>
      obtain ⟨a, b, rest, heq⟩ := claim172_shape h hc
      exact absurd heq (by intro hh; exact hne a b rest hh)

theorem isBlockedHost_eq_claim (h : String) : isBlockedHost h = claimBlockedHost h := by
  unfold isBlockedHost claimBlockedHost
  have hb : h = "127.0.0.1" → jsStartsWith h "127." = true := by
    rintro rfl
    decide
  rw [Bool.eq_iff_iff]
  simp only [Bool.or_eq_true, beq_iff_eq, regex172_eq_claim172]
  tauto

/-- Counterexample to C5 as stated: the empty-string query parameter `u=`
does not parse as a URL, yet the handler replies `Missing u` (the `!u`
check treats the empty string as absent), not `Invalid URL`. -/
theorem c5_empty_u_counterexample :
    adsProxyGuard (some "") = ProxyOutcome.reply 400 "Missing u" ∧
    parseURL "" = none ∧ ("Missing u" : String) ≠ "Invalid URL" :=
  ⟨rfl, rfl, by decide⟩

/-- C5 (amended): the `/ads/proxy` guard cascade matches the claim's case
list — absent *or empty* `u` replies 400 `Missing u`; a non-empty `u` that
does not parse replies 400 `Invalid URL`; a protocol other than `http:` or
`https:` replies 400 `Unsupported protocol`; a lowercased hostname matching
localhost, `*.localhost`, `127.*`, `10.*`, `192.168.*`,
`172.16.*`–`172.31.*`, `::1`, `fe80:*`, `fc*` or `fd*` replies 403
`Forbidden host`; and only otherwise does the handler proceed to the
outbound fetch. -/
theorem c5_guard_matches_claim (u : Option String) :
    adsProxyGuard u = claimProxyGuard u := by
  unfold adsProxyGuard claimProxyGuard
  cases u with
  | none => rfl
  | some s =>
    by_cases hs : s = ""
    · simp [hs]
    · simp only [hs, if_false]
      cases hp : parseURL s with
      | none => rfl
      | some t =>
        by_cases hproto : t.protocol = "http:" ∨ t.protocol = "https:"
        · rcases hproto with hh | hh <;> simp [hh, isBlockedHost_eq_claim]
        · push_neg at hproto
          obtain ⟨h1, h2⟩ := hproto
          simp [h1, h2]

/-! ## Claim C3: the attribute rewriting pass

The counterexample below shows the claim as stated is false: the regex's
value group `[^"']+` cannot match a value containing a quote of either
kind, so `href="it's"` is left unchanged even though `it's` does not begin
with one of the kept prefixes.  The amended claim is proved as
`c3_attr_rewrite` for every body that decomposes into an interleaving of
text pieces and occurrences `attr=QvQ` of the four attribute names: each
occurrence sits at a word boundary, its non-empty value contains no quote
character of either kind, and each intervening text piece (which may
itself contain quotes, e.g. earlier quoted attributes such as
`class="x"`) ends at a word boundary and contains no attribute-pattern
start at any of its word-boundary positions (`cleanSegment`).  The pass
rewrites every occurrence in one left-to-right scan to `attr=Q prox(v) Q`
and copies all text pieces and any trailing content unchanged — the value
is kept when it begins with `data:`, `blob:`, `mailto:` or `javascript:`,
rewritten to `/ads/proxy?u=` + `encodeURIComponent` of its resolution
against the fetched target when the resolution succeeds, and kept when
the URL constructor throws. -/


theorem matchCI_some (p : List Char) :
    ∀ (cs m r : List Char), matchCI p cs = some (m, r) →
      cs = m ++ r ∧ m.map Char.toLower = p.map Char.toLower := by
  induction p with
  | nil =>
    intro cs m r h
    simp [matchCI] at h
    obtain ⟨rfl, rfl⟩ := h
    simp
  | cons pc ps ih =>
    intro cs m r h
    cases cs with
    | nil => simp [matchCI] at h
    | cons c cs' =>
      simp only [matchCI] at h
      by_cases hc : c.toLower = pc.toLower
      · rw [if_pos hc] at h
        cases hm : matchCI ps cs' with
        | none => rw [hm] at h; simp at h
        | some pr =>
          obtain ⟨m', r'⟩ := pr
          rw [hm] at h
          simp only [Option.map_some'] at h
          have h' := Option.some.inj h
          have hm1 : m = c :: m' := (congrArg Prod.fst h').symm
          have hr1 : r = r' := (congrArg Prod.snd h').symm
          subst hm1
          subst hr1
          obtain ⟨h1, h2⟩ := ih cs' m' r hm
          subst h1
          constructor
          · simp
          · simp [h2, hc]
      · rw [if_neg hc] at h
        simp at h

theorem tryAttr_some (l : List String) :
    ∀ (cs m r : List Char), tryAttr l cs = some (m, r) →
      ∃ A ∈ l, matchCI A.data cs = some (m, r) := by
  induction l with
  | nil => intro cs m r h; simp [tryAttr] at h
  | cons a rest ih =>
    intro cs m r h
    simp only [tryAttr] at h
    cases hm : matchCI a.data cs with
    | none =>
      rw [hm] at h
      obtain ⟨A, hA, hmA⟩ := ih cs m r h
      exact ⟨A, by simp [hA], hmA⟩
    | some pr =>
      rw [hm] at h
      obtain ⟨m', r'⟩ := pr
      simp at h
      obtain ⟨rfl, rfl⟩ := h
      exact ⟨a, by simp, hm⟩

theorem attr_names_no_quote :
    ∀ A ∈ attrAlternatives, ∀ c ∈ A.data, isQuoteChar c = false := by decide

theorem attr_names_no_eq_lower :
    ∀ A ∈ attrAlternatives, ('=' : Char) ∉ A.data.map Char.toLower := by decide

theorem attr_names_ne_nil : ∀ A ∈ attrAlternatives, A.data ≠ [] := by decide

theorem attr_names_no_proper_suffix :
    ∀ A ∈ attrAlternatives, ∀ B ∈ attrAlternatives,
      B.data.length < A.data.length →
        (B.data.map Char.toLower).isSuffixOf (A.data.map Char.toLower) = false := by decide

theorem splitAtQuote_append (v : List Char) (hv : ∀ c ∈ v, isQuoteChar c = false)
    (q : Char) (hq : isQuoteChar q = true) (rest : List Char) :
    splitAtQuote (v ++ q :: rest) = some (v, q, rest) := by
  induction v with
  | nil => simp [splitAtQuote, hq]
  | cons c v' ih =>
    have hc : isQuoteChar c = false := hv c (by simp)
    have ih' := ih (fun c hcm => hv c (by simp [hcm]))
    simp [splitAtQuote, hc, ih']

theorem matchCI_self (p : List Char) (rest : List Char) :
    matchCI p (p ++ rest) = some (p, rest) := by
  induction p with
  | nil => simp [matchCI]
  | cons c p' ih => simp [matchCI, ih]

theorem tryAttr_core (attr : String) (hattr : attr ∈ attrAlternatives) (rest : List Char) :
    tryAttr attrAlternatives (attr.data ++ '=' :: rest) = some (attr.data, '=' :: rest) := by
  fin_cases hattr <;> rfl

theorem attr_names_no_eq : ∀ A ∈ attrAlternatives, ('=' : Char) ∉ A.data := by decide

/-- Converse of `matchCI_some`: any case-insensitive copy of the pattern at
the front of the input matches, capturing exactly itself. -/
theorem matchCI_of_ci (p : List Char) :
    ∀ (m : List Char), m.map Char.toLower = p.map Char.toLower →
      ∀ (r : List Char), matchCI p (m ++ r) = some (m, r) := by
  induction p with
  | nil =>
    intro m h r
    cases m with
    | nil => simp [matchCI]
    | cons c cs => simp at h
  | cons pc ps ih =>
    intro m h r
    cases m with
    | nil => simp at h
    | cons c cs =>
      simp only [List.map_cons, List.cons.injEq] at h
      simp [matchCI, h.1, ih cs h.2 r]

/-- The attribute regex can begin a match at the head of `u`: one of the
four names (case-insensitively), then `=`, then a quote. -/
def attrStartAt (u : List Char) : Bool :=
  attrAlternatives.any (fun a =>
    match matchCI a.data u with
    | some (_, e :: qc :: _) => e = '=' && isQuoteChar qc
    | _ => false)

/-- A text piece the scan passes through unchanged: at no position reached
with the word-boundary flag down does an attribute match begin.  `prevW`
is the flag with which the scan enters the piece. -/
def cleanSegment (prevW : Bool) : List Char → Bool
  | [] => true
  | c :: cs => (prevW || !attrStartAt (c :: cs)) && cleanSegment (isWordChar c) cs

/-- A successful `tryMatch` exhibits an alternative whose match is followed
by `=` and a quote. -/
theorem tryMatch_some_shape (cs : List Char) (out : List Char × Char × List Char × List Char)
    (h : tryMatch cs = some out) :
    ∃ A ∈ attrAlternatives, ∃ m qc r2,
      matchCI A.data cs = some (m, '=' :: qc :: r2) ∧ isQuoteChar qc = true := by
  unfold tryMatch at h
  cases hta : tryAttr attrAlternatives cs with
  | none => rw [hta] at h; simp at h
  | some pr =>
    obtain ⟨m, r⟩ := pr
    rw [hta] at h
    cases r with
    | nil => simp at h
    | cons e r1 =>
      cases r1 with
      | nil => simp at h
      | cons qc r2 =>
        by_cases he : e = '='
        · subst he
          by_cases hqc : isQuoteChar qc = true
          · obtain ⟨A, hA, hm⟩ := tryAttr_some _ _ _ _ hta
            exact ⟨A, hA, m, qc, r2, hm, hqc⟩
          · simp [hqc] at h
        · simp [he] at h

/-- Junction lemma: a match of an alternative that begins at the head of
`u` and is followed by `=` and a quote, inside `u` followed by a genuine
occurrence, must lie entirely within `u` — it cannot borrow the
occurrence's name, `=` or quote (names contain no `=` and no quote, and no
name is a proper case-insensitive suffix of another). -/
theorem attrStartAt_of_junction (u : List Char) (hu : u ≠ [])
    (attr : String) (hattr : attr ∈ attrAlternatives)
    (q : Char) (tail : List Char)
    (A : String) (hA : A ∈ attrAlternatives)
    (m : List Char) (qc : Char) (r2 : List Char)
    (hqc : isQuoteChar qc = true)
    (hm : matchCI A.data (u ++ attr.data ++ '=' :: q :: tail) = some (m, '=' :: qc :: r2)) :
    attrStartAt u = true := by
  obtain ⟨hsplit, hlow⟩ := matchCI_some _ _ _ _ hm
  have hmw : m = u ++ attr.data → False := by
    intro hmw
    have hsuf : (attr.data.map Char.toLower).isSuffixOf
        (A.data.map Char.toLower) = true := by
      rw [List.isSuffixOf_iff_suffix]
      refine ⟨u.map Char.toLower, ?_⟩
      rw [← List.map_append, ← hmw, hlow]
    have hlenm : m.length = A.data.length := by
      have := congrArg List.length hlow
      simpa using this
    have hlt : attr.data.length < A.data.length := by
      rw [← hlenm, hmw, List.length_append]
      cases u with
      | nil => exact absurd rfl hu
      | cons a b => simp
    exact absurd hsuf (by simp [attr_names_no_proper_suffix A hA attr hattr hlt])
  rcases List.append_eq_append_iff.mp hsplit with ⟨a2, hma, hda⟩ | ⟨c2, hwc, hrc⟩
  · -- the name match ran past the occurrence's '='
    cases a2 with
    | nil => exact absurd (by simpa using hma) hmw
    | cons z a3 =>
      simp only [List.cons_append] at hda
      injection hda with h1 h2
      subst h1
      have hmem : ('=' : Char) ∈ m := by
        rw [hma]
        exact List.mem_append.mpr (Or.inr (by simp))
      have hmeml : ('=' : Char) ∈ m.map Char.toLower := by
        have := List.mem_map_of_mem Char.toLower hmem
        simpa using this
      rw [hlow] at hmeml
      exact absurd hmeml (by simpa using attr_names_no_eq_lower A hA)
  · -- the name match stopped at or before the occurrence's '='
    cases c2 with
    | nil => exact absurd (by simpa using hwc.symm) hmw
    | cons x cs2 =>
      simp only [List.cons_append] at hrc
      injection hrc with h1 h2
      subst h1
      cases cs2 with
      | nil =>
        -- the matched quote would be the occurrence's '='
        simp only [List.nil_append] at h2
        injection h2 with h3 h4
        rw [h3] at hqc
        simp [isQuoteChar] at hqc
      | cons y cs3 =>
        simp only [List.cons_append] at h2
        injection h2 with h3 h4
        subst h3
        -- hwc : u ++ attr.data = m ++ '=' :: y :: cs3, with y = qc a quote
        rcases List.append_eq_append_iff.mp hwc with ⟨a4, hm4, hb4⟩ | ⟨u2, hu2, hd2⟩
        · -- attr.data would contain '='
          have : ('=' : Char) ∈ attr.data := by
            rw [hb4]
            exact List.mem_append.mpr (Or.inr (by simp))
          exact absurd this (attr_names_no_eq attr hattr)
        · cases u2 with
          | nil =>
            have h9 : attr.data = '=' :: qc :: cs3 := by simpa using hd2.symm
            have : ('=' : Char) ∈ attr.data := by
              rw [h9]
              simp
            exact absurd this (attr_names_no_eq attr hattr)
          | cons e2 u3 =>
            simp only [List.cons_append] at hd2
            injection hd2 with h5 h6
            subst h5
            cases u3 with
            | nil =>
              -- the matched quote would be the occurrence name's first letter
              simp only [List.nil_append] at h6
              have hyattr : qc ∈ attr.data := by
                rw [← h6]
                simp
              have := attr_names_no_quote attr hattr qc hyattr
              rw [this] at hqc
              simp at hqc
            | cons y2 u4 =>
              simp only [List.cons_append] at h6
              injection h6 with h7 h8
              subst h7
              -- u = m ++ '=' :: qc :: u4: the match start lies inside u
              have hueq : u = m ++ '=' :: qc :: u4 := by
                rw [hu2]
              have hmci : matchCI A.data u = some (m, '=' :: qc :: u4) := by
                rw [hueq]
                exact matchCI_of_ci A.data m hlow ('=' :: qc :: u4)
              unfold attrStartAt
              rw [List.any_eq_true]
              refine ⟨A, by simpa using hA, ?_⟩
              rw [hmci]
              simp [hqc]

/-- Where no attribute match begins, `tryMatch` fails. -/
theorem tryMatch_fail_of_no_start (cs : List Char) (h : attrStartAt cs = false) :
    tryMatch cs = none := by
  cases htm : tryMatch cs with
  | none => rfl
  | some out =>
    obtain ⟨A, hA, m, qc, r2, hm, hqc⟩ := tryMatch_some_shape _ _ htm
    have : attrStartAt cs = true := by
      unfold attrStartAt
      rw [List.any_eq_true]
      refine ⟨A, by simpa using hA, ?_⟩
      rw [hm]
      simp [hqc]
    rw [h] at this
    simp at this

/-- At a position where no attribute match begins locally, `tryMatch` also
fails with a genuine occurrence following: the junction lemma rules out any
match borrowing the occurrence's characters. -/
theorem tryMatch_prefix_fail (s : List Char) (hs : s ≠ [])
    (hnostart : attrStartAt s = false)
    (attr : String) (hattr : attr ∈ attrAlternatives)
    (q : Char) (tail : List Char) :
    tryMatch (s ++ attr.data ++ '=' :: q :: tail) = none := by
  cases htm : tryMatch (s ++ attr.data ++ '=' :: q :: tail) with
  | none => rfl
  | some out =>
    obtain ⟨A, hA, m, qc, r2, hm, hqc⟩ := tryMatch_some_shape _ _ htm
    have := attrStartAt_of_junction s hs attr hattr q tail A hA m qc r2 hqc hm
    rw [hnostart] at this
    simp at this

/-- `tryMatch` at an occurrence: the four alternatives are decided by their
distinct first letters, the greedy value run stops at the closing quote
(the value is quote-free), and the backreference succeeds; the rest of the
body is returned untouched. -/
theorem tryMatch_core (attr : String) (hattr : attr ∈ attrAlternatives)
    (q : Char) (hq : isQuoteChar q = true)
    (v : List Char) (hv : v ≠ []) (hvq : ∀ c ∈ v, isQuoteChar c = false)
    (post : List Char) :
    tryMatch (attr.data ++ '=' :: q :: (v ++ q :: post)) = some (attr.data, q, v, post) := by
  have hta := tryAttr_core attr hattr (q :: (v ++ q :: post))
  have hsp := splitAtQuote_append v hvq q hq post
  simp only [tryMatch, hta, hsp, hq, if_true]
  simp [hv]
def endWordFlag (prevW : Bool) : List Char → Bool
  | [] => prevW
  | c :: s => endWordFlag (isWordChar c) s

theorem endWordFlag_cons (prevW : Bool) (c : Char) (s : List Char) :
    endWordFlag prevW (c :: s) = endWordFlag (isWordChar c) s := rfl

theorem endWordFlag_getLast (prevW : Bool) (s : List Char) :
    endWordFlag prevW s =
      match s.getLast? with
      | none => prevW
      | some c => isWordChar c := by
  induction s generalizing prevW with
  | nil => rfl
  | cons c s ih =>
    rw [endWordFlag_cons, ih]
    cases s with
    | nil => rfl
    | cons d t =>
      rw [List.getLast?_cons_cons]
      cases hgl : (d :: t).getLast? with
      | none => simp at hgl
      | some e => rfl

theorem scanAttrs_end (base : URLRec) (fuel : Nat) (prevW : Bool) :
    scanAttrs base fuel prevW [] = [] := by
  cases fuel <;> rfl
/-- The scan passes a clean segment through unchanged when it is followed
by a genuine occurrence, arriving at the occurrence with the segment's end
boundary flag and one fuel unit spent per character. -/
theorem scanAttrs_skip_segment (base : URLRec) (attr : String)
    (hattr : attr ∈ attrAlternatives) (q : Char) (tail : List Char) :
    ∀ (s : List Char), cleanSegment false s = true →
      ∀ (fuel : Nat), (s ++ attr.data ++ '=' :: q :: tail).length ≤ fuel →
        scanAttrs base fuel false (s ++ attr.data ++ '=' :: q :: tail) =
          s ++ scanAttrs base (fuel - s.length) (endWordFlag false s)
            (attr.data ++ '=' :: q :: tail) := by
  have main : ∀ (s : List Char) (prevW : Bool), cleanSegment prevW s = true →
      ∀ (fuel : Nat), (s ++ attr.data ++ '=' :: q :: tail).length ≤ fuel →
        scanAttrs base fuel prevW (s ++ attr.data ++ '=' :: q :: tail) =
          s ++ scanAttrs base (fuel - s.length) (endWordFlag prevW s)
            (attr.data ++ '=' :: q :: tail) := by
    intro s
    induction s with
    | nil =>
      intro prevW _ fuel _
      simp [endWordFlag]
    | cons c s' ih =>
      intro prevW hclean fuel hlen
      cases fuel with
      | zero => simp at hlen
      | succ f =>
        simp only [cleanSegment, Bool.and_eq_true] at hclean
        obtain ⟨h1, h2⟩ := hclean
        have hlen' : (s' ++ attr.data ++ '=' :: q :: tail).length ≤ f := by
          simp only [List.cons_append, List.length_cons] at hlen
          omega
        rw [List.cons_append]
        simp only [scanAttrs, List.append_eq]
        cases prevW with
        | true =>
          simp only [if_true]
          rw [ih (isWordChar c) h2 f hlen']
          rw [List.cons_append, endWordFlag_cons]
          simp [Nat.succ_sub_succ]
        | false =>
          have hstart : attrStartAt (c :: s') = false := by simpa using h1
          have hfail : tryMatch (c :: (s' ++ attr.data ++ '=' :: q :: tail)) = none := by
            have := tryMatch_prefix_fail (c :: s') (by simp) hstart attr hattr q tail
            simpa using this
          simp only [Bool.false_eq_true, if_false, hfail]
          rw [ih (isWordChar c) h2 f hlen']
          rw [List.cons_append, endWordFlag_cons]
          simp [Nat.succ_sub_succ]
  exact fun s hc fuel hl => main s false hc fuel hl

/-- The scan leaves a clean trailing segment (nothing following) unchanged. -/
theorem scanAttrs_clean_id (base : URLRec) :
    ∀ (s : List Char) (prevW : Bool) (fuel : Nat),
      cleanSegment prevW s = true → s.length ≤ fuel →
      scanAttrs base fuel prevW s = s := by
  intro s
  induction s with
  | nil =>
    intro prevW fuel _ _
    exact scanAttrs_end base fuel prevW
  | cons c s' ih =>
    intro prevW fuel hclean hlen
    cases fuel with
    | zero => simp at hlen
    | succ f =>
      simp only [cleanSegment, Bool.and_eq_true] at hclean
      obtain ⟨h1, h2⟩ := hclean
      have hlen' : s'.length ≤ f := by
        simp only [List.length_cons] at hlen
        omega
      simp only [scanAttrs]
      cases prevW with
      | true =>
        simp only [if_true]
        rw [ih (isWordChar c) f h2 hlen']
      | false =>
        have hstart : attrStartAt (c :: s') = false := by simpa using h1
        have hfail := tryMatch_fail_of_no_start _ hstart
        simp only [Bool.false_eq_true, if_false, hfail]
        rw [ih (isWordChar c) f h2 hlen']

/-- The scan at an occurrence emits the callback's replacement and
continues after the closing quote (with the boundary flag down), spending
one fuel unit. -/
theorem scanAttrs_core (base : URLRec) (attr : String) (hattr : attr ∈ attrAlternatives)
    (q : Char) (hq : isQuoteChar q = true) (v : List Char) (hv : v ≠ [])
    (hvq : ∀ c ∈ v, isQuoteChar c = false) (post : List Char) (fuel : Nat)
    (hfuel : 1 ≤ fuel) :
    scanAttrs base fuel false (attr.data ++ '=' :: q :: (v ++ q :: post)) =
      (attrReplacement base attr.data q v).data ++ scanAttrs base (fuel - 1) false post := by
  have hcore := tryMatch_core attr hattr q hq v hv hvq post
  cases ha : attr.data with
  | nil => exact absurd ha (attr_names_ne_nil attr hattr)
  | cons a as =>
    cases fuel with
    | zero => simp at hfuel
    | succ f =>
      rw [ha] at hcore
      rw [List.cons_append]
      simp only [scanAttrs, List.append_eq]
      simp only [List.cons_append] at hcore
      simp only [hcore]
      simp

/-- A body decomposed into text pieces and attribute occurrences: each
entry is (text before, attribute name, quote, value), followed by a final
trailing piece. -/
def assembleSegs : List (List Char × String × Char × String) → List Char → List Char
  | [], final => final
  | (t, attr, q, v) :: rest, final =>
    t ++ attr.data ++ '=' :: q :: (v.data ++ q :: assembleSegs rest final)

/-- The same body with every occurrence's value passed through the
replacement callback. -/
def assembleRewritten (base : URLRec) :
    List (List Char × String × Char × String) → List Char → List Char
  | [], final => final
  | (t, attr, q, v) :: rest, final =>
    t ++ ((attrReplacement base attr.data q v.data).data ++ assembleRewritten base rest final)

/-- A well-formed entry: the name is one of the four alternatives, the
quote is a quote, the value is non-empty and free of both quote
characters, and the preceding text is clean (no attribute match can begin
in it) and ends at a word boundary. -/
def segWellFormed (seg : List Char × String × Char × String) : Prop :=
  seg.2.1 ∈ attrAlternatives ∧ isQuoteChar seg.2.2.1 = true ∧
  seg.2.2.2.data ≠ [] ∧ (∀ c ∈ seg.2.2.2.data, isQuoteChar c = false) ∧
  cleanSegment false seg.1 = true ∧ endWordFlag false seg.1 = false

instance (seg : List Char × String × Char × String) : Decidable (segWellFormed seg) := by
  unfold segWellFormed
  infer_instance

/-- The scan of an assembled body: clean text pieces pass through, every
occurrence is rewritten by the callback, the trailing piece passes
through. -/
theorem scanAttrs_assemble (base : URLRec) (final : List Char)
    (hfinal : cleanSegment false final = true) :
    ∀ (segs : List (List Char × String × Char × String)),
      (∀ seg ∈ segs, segWellFormed seg) →
      ∀ fuel : Nat, (assembleSegs segs final).length ≤ fuel →
      scanAttrs base fuel false (assembleSegs segs final) =
        assembleRewritten base segs final := by
  intro segs
  induction segs with
  | nil =>
    intro _ fuel hlen
    exact scanAttrs_clean_id base final false fuel hfinal hlen
  | cons seg rest ih =>
    intro hwf fuel hlen
    obtain ⟨t, attr, q, v⟩ := seg
    have hw := hwf (t, attr, q, v) (by simp)
    unfold segWellFormed at hw
    obtain ⟨hattr, hq, hv, hvq, hcleanT, hendT⟩ := hw
    have hwfr : ∀ s ∈ rest, segWellFormed s := fun s hs => hwf s (by simp [hs])
    simp only [assembleSegs] at hlen ⊢
    have hal : 1 ≤ attr.data.length := List.length_pos.mpr (attr_names_ne_nil attr hattr)
    have hlens : (t ++ attr.data ++ '=' :: q :: (v.data ++ q :: assembleSegs rest final)).length
        = t.length + attr.data.length + 2 + v.data.length + 1
          + (assembleSegs rest final).length := by
      simp [List.length_append]
      omega
    rw [scanAttrs_skip_segment base attr hattr q (v.data ++ q :: assembleSegs rest final)
      t hcleanT fuel hlen]
    rw [hendT]
    rw [scanAttrs_core base attr hattr q hq v.data hv hvq (assembleSegs rest final)
      (fuel - t.length) (by rw [hlens] at hlen; omega)]
    rw [ih hwfr (fuel - t.length - 1) (by rw [hlens] at hlen; omega)]
    simp only [assembleRewritten]

/-- C3 (amended): on a `text/html` body decomposed as interleaved text
pieces and attribute occurrences `attr=QvQ` — each occurrence one of
`href`/`src`/`action`/`poster` with a non-empty value free of both quote
characters, each text piece ending at a word boundary and starting no
attribute match of its own — the pass leaves every text piece unchanged
and rewrites every occurrence through the callback: a value beginning with
`data:`, `blob:`, `mailto:` or `javascript:` is kept, any other value
becomes `/ads/proxy?u=` plus the percent-encoded serialisation of its
resolution against the fetched target when the URL constructor succeeds
(second conjunct), and is kept when it throws. -/
theorem c3_attr_rewrite (target : URLRec)
    (segs : List (List Char × String × Char × String)) (final : List Char)
    (hsegs : ∀ seg ∈ segs, segWellFormed seg)
    (hfinal : cleanSegment false final = true) :
    htmlAttrPass target (String.mk (assembleSegs segs final)) =
      String.mk (assembleRewritten target segs final) ∧
    (∀ (u : String) (abs : URLRec), resolveURL u target = some abs →
      prox target u = "/ads/proxy?u=" ++ encodeURIComponent (serializeURL abs)) := by
  constructor
  · unfold htmlAttrPass
    exact congrArg String.mk
      (scanAttrs_assemble target final hfinal segs hsegs _ (le_refl _))
  · intro u abs h
    simp [prox, h]
def c3Target : URLRec :=
  { protocol := "https:", hostname := "example.com", port := "", pathname := "/page",
    search := "", hash := "" }

def c3Body : String :=
  String.mk ['<', 'a', ' ', 'h', 'r', 'e', 'f', '=', '"', 'i', 't', '\'', 's', '"', '>']

def c3Value : String := String.mk ['i', 't', '\'', 's']

/-- Counterexample to C3 as stated: in `<a href="it's">` the double-quoted
value `it's` does not begin with any of the four kept prefixes and resolves
fine against the target, yet the pass leaves the body unchanged (the regex
value group `[^"']+` cannot cross the inner single quote), while the claim
mandates replacement by `/ads/proxy?u=...`, which differs from the value. -/
theorem c3_href_quote_counterexample :
    htmlAttrPass c3Target c3Body = c3Body ∧
    hasBadPrefix c3Value = false ∧
    resolveURL c3Value c3Target =
      some { protocol := "https:", hostname := "example.com", port := "",
             pathname := String.mk ['/', 'i', 't', '\'', 's'], search := "", hash := "" } ∧
    "/ads/proxy?u=" ++ encodeURIComponent (serializeURL
      { protocol := "https:", hostname := "example.com", port := "",
        pathname := String.mk ['/', 'i', 't', '\'', 's'], search := "", hash := "" }) ≠
      c3Value := by
  refine ⟨by decide, by decide, by decide, by decide⟩

/-- A concrete multi-occurrence body for the C3 witness: an earlier quoted
`class` attribute, two rewritable occurrences with different quotes, and
trailing text — `<a class="x" href="https://ads.example/go" src='/y'>ok`. -/
def c3Segs : List (List Char × String × Char × String) :=
  [(['<', 'a', ' ', 'c', 'l', 'a', 's', 's', '=', '"', 'x', '"', ' '],
      "href", '"', "https://ads.example/go"),
   ([' '], "src", '\'', "/y")]

def c3Final : List Char := ['>', 'o', 'k']

/-- Witness for C3 (amended) at the concrete body
`<a class="x" href="https://ads.example/go" src='/y'>ok`: every entry is
well-formed, the trailing piece is clean, and the pass rewrites both
values through the callback while leaving the rest of the body unchanged. -/
theorem c3_attr_rewrite_witness :
    ((∀ seg ∈ c3Segs, segWellFormed seg) ∧ cleanSegment false c3Final = true) ∧
    htmlAttrPass c3Target (String.mk (assembleSegs c3Segs c3Final)) =
      String.mk (assembleRewritten c3Target c3Segs c3Final) :=
  ⟨⟨by decide, by decide⟩,
   (c3_attr_rewrite c3Target c3Segs c3Final (by decide) (by decide)).1⟩

end NovaNet
